import Mathlib

/-!
Verification of the core of `conways_game_of_life.py`: toroidal neighbor
counting (`count_neighbors`), the generation update (`update_grid`), the
age map (`cell_ages`), the event handlers of `main` that mutate simulation
state (mouse toggle, R-key randomize), and the HSV color palette
(`generate_color_palette`).

Modelling choices:
- A numpy 2D array of shape `(rows, cols)` is modelled as a function
  `Nat → Nat → Nat` together with the dimensions; only indices
  `i < rows`, `j < cols` correspond to array cells, and every operation
  of the program only reads and writes such indices (after the `%`
  wrapping).  Grid cells hold 0/1, ages hold the nonnegative integers
  the program stores in them.
- Python `%` on integers with a positive right operand agrees with
  `Int.emod`, which is Lean's `%` on `Int`.
- Randomness (`np.random.choice`) is modelled by passing the drawn grid
  as an explicit function argument.
- The float arithmetic of `colorsys.hsv_to_rgb` is modelled exactly over
  `ℚ` (so `0.8` is `4/5`), and Python `int(...)` on the nonnegative
  reals appearing here is `Int.floor`.
-/

namespace GTI

/-- Python index wrapping: `a % m` for a (possibly negative) integer `a`
and positive modulus `m`, as in `row = (x + i) % rows` of
`count_neighbors`.  `Int.emod` agrees with Python `%` on positive moduli. -/
def wrap (m : Nat) (a : Int) : Nat := (a % (m : Int)).toNat

/-- `count_neighbors(grid, x, y)` from the source: the double loop over
`i, j ∈ {-1, 0, 1}` skipping `(0, 0)`, unrolled in loop order, each read
at `((x + i) % rows, (y + j) % cols)`. -/
def count_neighbors (g : Nat → Nat → Nat) (rows cols : Nat) (x y : Nat) : Nat :=
  g (wrap rows ((x : Int) - 1)) (wrap cols ((y : Int) - 1)) +
  g (wrap rows ((x : Int) - 1)) (wrap cols ((y : Int))) +
  g (wrap rows ((x : Int) - 1)) (wrap cols ((y : Int) + 1)) +
  g (wrap rows ((x : Int))) (wrap cols ((y : Int) - 1)) +
  g (wrap rows ((x : Int))) (wrap cols ((y : Int) + 1)) +
  g (wrap rows ((x : Int) + 1)) (wrap cols ((y : Int) - 1)) +
  g (wrap rows ((x : Int) + 1)) (wrap cols ((y : Int))) +
  g (wrap rows ((x : Int) + 1)) (wrap cols ((y : Int) + 1))

/-- The mutable simulation state of the module: dimensions `rows`/`cols`,
the `grid` array and the parallel `cell_ages` array. -/
structure GameState where
  rows : Nat
  cols : Nat
  grid : Nat → Nat → Nat
  cell_ages : Nat → Nat → Nat

/-- The next value `update_grid` stores into `next_grid[i, j]`:
`next_grid` starts as `grid.copy()`, a live cell with neighbor count
outside `{2, 3}` is set to 0, a dead cell with exactly 3 neighbors is set
to 1, and otherwise the copied value is kept. -/
def next_cell (s : GameState) (i j : Nat) : Nat :=
  let neighbors := count_neighbors s.grid s.rows s.cols i j
  if s.grid i j = 1 then
    if neighbors < 2 ∨ neighbors > 3 then 0 else s.grid i j
  else
    if neighbors = 3 then 1 else s.grid i j

/-- The value `update_grid` leaves in `cell_ages[i, j]`: reset to 0 when
the live cell dies, `min(255, age + 1)` when it survives, reset to 0 when
a dead cell is born, unchanged otherwise. -/
def next_age (s : GameState) (i j : Nat) : Nat :=
  let neighbors := count_neighbors s.grid s.rows s.cols i j
  if s.grid i j = 1 then
    if neighbors < 2 ∨ neighbors > 3 then 0 else min 255 (s.cell_ages i j + 1)
  else
    if neighbors = 3 then 0 else s.cell_ages i j

/-- `update_grid()` from the source: every in-range cell gets its next
state and age, computed entirely from the pre-step `grid` (the code reads
`grid` and writes `next_grid = grid.copy()`, assigning `grid = next_grid`
only at the end; `cell_ages[i, j]` is written once per cell, in the same
iteration that reads it). -/
def update_grid (s : GameState) : GameState :=
  { s with
    grid := fun i j => if i < s.rows ∧ j < s.cols then next_cell s i j else s.grid i j
    cell_ages := fun i j => if i < s.rows ∧ j < s.cols then next_age s i j else s.cell_ages i j }

/-- The mouse-click handler of `main`: with `i, j` the (nonnegative) cell
coordinates obtained from the click position, if `0 <= i < rows and
0 <= j < cols` then `grid[i, j] = not grid[i, j]` and
`cell_ages[i, j] = 0`; otherwise nothing happens. -/
def toggle (s : GameState) (row col : Nat) : GameState :=
  if row < s.rows ∧ col < s.cols then
    { s with
      grid := fun i j =>
        if i = row ∧ j = col then (if s.grid row col = 0 then 1 else 0) else s.grid i j
      cell_ages := fun i j => if i = row ∧ j = col then 0 else s.cell_ages i j }
  else s

/-- The R-key handler of `main`: `grid[:] = np.random.choice(...)` (the
drawn array is the argument `g`) and `cell_ages.fill(0)`. -/
def randomize (s : GameState) (g : Nat → Nat → Nat) : GameState :=
  { s with
    grid := fun i j => if i < s.rows ∧ j < s.cols then g i j else s.grid i j
    cell_ages := fun _ _ => 0 }

/-- Module initialization: `grid = np.random.choice(...)` (the drawn
array is `g`) and `cell_ages = np.zeros((rows, cols))`. -/
def initState (rows cols : Nat) (g : Nat → Nat → Nat) : GameState :=
  ⟨rows, cols, g, fun _ _ => 0⟩

/-- The states the simulation can reach: module initialization followed by
any sequence of generation steps, mouse toggles and R-key randomizations. -/
inductive Reachable : GameState → Prop
  | start (rows cols : Nat) (g : Nat → Nat → Nat) : Reachable (initState rows cols g)
  | step (s : GameState) : Reachable s → Reachable (update_grid s)
  | click (s : GameState) (row col : Nat) : Reachable s → Reachable (toggle s row col)
  | rkey (s : GameState) (g : Nat → Nat → Nat) : Reachable s → Reachable (randomize s g)

/-- The spec invariant: `AgeMap[i,j] == 0` whenever `Grid[i,j]` is dead. -/
abbrev deadAgeZero (s : GameState) : Prop :=
  ∀ i, i < s.rows → ∀ j, j < s.cols → s.grid i j = 0 → s.cell_ages i j = 0

/-- Every in-range age is at most 255. -/
abbrev agesBounded (s : GameState) : Prop :=
  ∀ i, i < s.rows → ∀ j, j < s.cols → s.cell_ages i j ≤ 255

/-- Two states agree observably: equal dimensions and equal grid and age
values at every in-range cell. -/
abbrev ObsEq (s1 s2 : GameState) : Prop :=
  s1.rows = s2.rows ∧ s1.cols = s2.cols ∧
    ∀ i, i < s1.rows → ∀ j, j < s1.cols →
      s1.grid i j = s2.grid i j ∧ s1.cell_ages i j = s2.cell_ages i j

/-- A 5×5 grid holding exactly the 3-cell vertical line centered in the
grid (cells (1,2), (2,2), (3,2) alive), all ages 0. -/
def blinker : GameState :=
  ⟨5, 5, fun i j => if (i = 1 ∨ i = 2 ∨ i = 3) ∧ j = 2 then 1 else 0, fun _ _ => 0⟩

/-- A 3×3 grid with exactly the four corners alive. -/
def cornersGrid : Nat → Nat → Nat :=
  fun i j => if (i = 0 ∨ i = 2) ∧ (j = 0 ∨ j = 2) then 1 else 0

/-- A 4×4 grid holding a 2×2 block still life at rows 1-2, cols 1-2,
all ages 0. -/
def blockState : GameState :=
  ⟨4, 4, fun i j => if (i = 1 ∨ i = 2) ∧ (j = 1 ∨ j = 2) then 1 else 0, fun _ _ => 0⟩

/-- A 2×2 state used to compare two identically initialized engines. -/
def detA : GameState :=
  ⟨2, 2, fun i j => if i = 0 ∧ j = 0 then 1 else 0, fun _ _ => 0⟩

/-- Observably identical to `detA` (same in-range cells), but with
different junk values at out-of-range indices of the modelling functions. -/
def detB : GameState :=
  ⟨2, 2, fun i j => if i = 0 ∧ j = 0 then 1 else if 5 ≤ i then 7 else 0,
    fun _ j => if 9 ≤ j then 3 else 0⟩

/-- Round half to even: the integer nearest to `x`, ties to the even
neighbor — the tie-breaking rule of IEEE-754 round-to-nearest. -/
def rte (x : ℚ) : ℤ :=
  if x - ⌊x⌋ < 1 / 2 then ⌊x⌋
  else if 1 / 2 < x - ⌊x⌋ then ⌊x⌋ + 1
  else if ⌊x⌋ % 2 = 0 then ⌊x⌋ else ⌊x⌋ + 1

/-- The exponent of the least significant bit of the IEEE-754 binary64
value nearest `q`: 52 bits below the leading bit, clamped at the
subnormal limit `2 ^ (-1074)`. -/
def dexp (q : ℚ) : ℤ := max (Int.log 2 |q| - 52) (-1074)

/-- Rounding of an exact rational to IEEE-754 binary64 (double)
precision: round to nearest, ties to even, 53 significant bits, with
gradual underflow below `2 ^ (-1022)`.  Every finite double is exactly
the rational it denotes, and every Python float operation `x ⋄ y` in
this program yields `fl` of the exact result, so composing `fl` with
exact rational arithmetic reproduces the doubles the program computes
bit for bit (no operation here overflows to infinity: every
intermediate value is at most 1530). -/
def fl (q : ℚ) : ℚ :=
  if q = 0 then 0
  else (if q < 0 then -1 else 1) * (rte (|q| / 2 ^ dexp q) : ℚ) * 2 ^ dexp q

/-- Python `int(q)` on a float: truncation toward zero. -/
def pytrunc (q : ℚ) : ℤ := if q < 0 then -⌊-q⌋ else ⌊q⌋

/-- `colorsys.hsv_to_rgb(h, s, v)` from the Python standard library, its
IEEE-754 double arithmetic modelled exactly: `i = int(h*6.0)`,
`f = (h*6.0) - i`, `p = v*(1.0-s)`, `q = v*(1.0-s*f)`,
`t = v*(1.0-s*(1.0-f))`, each float operation rounded by `fl`, then the
6-way branch on `i % 6` (Python `%` is `Int.emod`). -/
def hsv_to_rgb (h s v : ℚ) : ℚ × ℚ × ℚ :=
  if s = 0 then (v, v, v)
  else
    let i : ℤ := pytrunc (fl (h * 6))
    let f : ℚ := fl (fl (h * 6) - (i : ℚ))
    let p : ℚ := fl (v * fl (1 - s))
    let q : ℚ := fl (v * fl (1 - fl (s * f)))
    let t : ℚ := fl (v * fl (1 - fl (s * fl (1 - f))))
    if i % 6 = 0 then (v, t, p)
    else if i % 6 = 1 then (q, v, p)
    else if i % 6 = 2 then (p, v, t)
    else if i % 6 = 3 then (p, q, v)
    else if i % 6 = 4 then (t, p, v)
    else (v, p, q)

/-- `generate_color_palette(n)` from the source: for each `i < n`,
`hue = i / n` (float true division, hence `fl` of the exact quotient),
`rgb = colorsys.hsv_to_rgb(hue, 0.8, 1.0)` — the literal `0.8` parses to
the double nearest `4/5`, namely `fl (4/5) = 3602879701896397 / 2^52`,
while `1.0`, `6.0` and `255` are exact — and the entry is
`[int(255 * x) for x in rgb]` with the product rounded by `fl`. -/
def generate_color_palette (n : Nat) : List (List ℤ) :=
  (List.range n).map fun (ix : Nat) =>
    let hue : ℚ := fl ((ix : ℚ) / (n : ℚ))
    let c := hsv_to_rgb hue (fl (4 / 5)) 1
    [pytrunc (fl (255 * c.1)), pytrunc (fl (255 * c.2.1)), pytrunc (fl (255 * c.2.2))]

/-- The palette entry the spec sentence predicts (refinement comparison):
hue `i / n` converted at FULL saturation (`s = 1.0`, exactly
representable) and full value, with the same double arithmetic and
channel scaling as the code. -/
def claimed_palette_entry (n i : Nat) : List ℤ :=
  let c := hsv_to_rgb (fl ((i : ℚ) / (n : ℚ))) 1 1
  [pytrunc (fl (255 * c.1)), pytrunc (fl (255 * c.2.1)), pytrunc (fl (255 * c.2.2))]

/-- Index wrapping always lands inside the array: `a % m ∈ [0, m)` for
`m > 0`. -/
theorem wrap_lt {m : Nat} (hm : 0 < m) (a : Int) : wrap m a < m := by
  have hne : (m : Int) ≠ 0 := by exact_mod_cast hm.ne'
  have h1 : 0 ≤ a % (m : Int) := Int.emod_nonneg a hne
  have h2 : a % (m : Int) < (m : Int) := Int.emod_lt_of_pos a (by exact_mod_cast hm)
  unfold wrap
  omega

/-- Claim C8: on a 3×3 grid with exactly the four corners (0,0), (0,2),
(2,0), (2,2) alive, `count_neighbors` at (0,0) returns exactly 3: the
toroidal wrapping makes the other three corners its neighbors. -/
theorem corners_wrap_count : count_neighbors cornersGrid 3 3 0 0 = 3 := by decide

/-- Claim C7: on a 5×5 grid containing exactly the 3-cell vertical line
centered in the grid (all other cells dead, all ages 0), one `update_grid`
yields exactly the corresponding 3-cell horizontal line, and a second
`update_grid` restores the original vertical line (period-2 oscillation). -/
theorem blinker_period_two :
    (∀ i : Fin 5, ∀ j : Fin 5,
      (update_grid blinker).grid i.1 j.1 =
        (if i.1 = 2 ∧ (j.1 = 1 ∨ j.1 = 2 ∨ j.1 = 3) then 1 else 0)) ∧
    (∀ i : Fin 5, ∀ j : Fin 5,
      (update_grid (update_grid blinker)).grid i.1 j.1 = blinker.grid i.1 j.1) := by
  decide

/-- Claim C4: for every grid with positive dimensions whose in-range cells
are 0/1, `count_neighbors` returns a value in [0, 8] at every coordinate
pair (the function is total, so no exception is possible — including on
degenerate 1×1 and 1×N grids, where wrapping double-counts cells), and on
an all-dead grid it returns 0 for every cell. -/
theorem count_neighbors_in_range :
    (∀ (g : Nat → Nat → Nat) (rows cols : Nat), 0 < rows → 0 < cols →
      (∀ i, i < rows → ∀ j, j < cols → g i j ≤ 1) →
      ∀ x y, count_neighbors g rows cols x y ≤ 8) ∧
    (∀ (g : Nat → Nat → Nat) (rows cols : Nat), 0 < rows → 0 < cols →
      (∀ i, i < rows → ∀ j, j < cols → g i j = 0) →
      ∀ x y, count_neighbors g rows cols x y = 0) := by
  constructor
  · intro g rows cols hr hc hb x y
    have key : ∀ a b : Int, g (wrap rows a) (wrap cols b) ≤ 1 :=
      fun a b => hb _ (wrap_lt hr a) _ (wrap_lt hc b)
    unfold count_neighbors
    have k1 := key ((x : Int) - 1) ((y : Int) - 1)
    have k2 := key ((x : Int) - 1) ((y : Int))
    have k3 := key ((x : Int) - 1) ((y : Int) + 1)
    have k4 := key ((x : Int)) ((y : Int) - 1)
    have k5 := key ((x : Int)) ((y : Int) + 1)
    have k6 := key ((x : Int) + 1) ((y : Int) - 1)
    have k7 := key ((x : Int) + 1) ((y : Int))
    have k8 := key ((x : Int) + 1) ((y : Int) + 1)
    omega
  · intro g rows cols hr hc hb x y
    have key : ∀ a b : Int, g (wrap rows a) (wrap cols b) = 0 :=
      fun a b => hb _ (wrap_lt hr a) _ (wrap_lt hc b)
    unfold count_neighbors
    have k1 := key ((x : Int) - 1) ((y : Int) - 1)
    have k2 := key ((x : Int) - 1) ((y : Int))
    have k3 := key ((x : Int) - 1) ((y : Int) + 1)
    have k4 := key ((x : Int)) ((y : Int) - 1)
    have k5 := key ((x : Int)) ((y : Int) + 1)
    have k6 := key ((x : Int) + 1) ((y : Int) - 1)
    have k7 := key ((x : Int) + 1) ((y : Int))
    have k8 := key ((x : Int) + 1) ((y : Int) + 1)
    omega

/-- Witness for C4: the degenerate all-alive 1×1 grid (every wrapped
lookup double-counts the single cell, giving exactly 8) and an all-dead
3×3 grid. -/
theorem count_neighbors_in_range_witness :
    count_neighbors (fun _ _ => 1) 1 1 0 0 ≤ 8 ∧
    count_neighbors (fun _ _ => 0) 3 3 2 2 = 0 :=
  ⟨count_neighbors_in_range.1 (fun _ _ => 1) 1 1 (by decide) (by decide)
      (fun _ _ _ _ => le_refl 1) 0 0,
    count_neighbors_in_range.2 (fun _ _ => 0) 3 3 (by decide) (by decide)
      (fun _ _ _ _ => rfl) 2 2⟩

/-- Claim C1: one `update_grid` computes every in-range cell's next state
from the pre-step state (the embedding of `update_grid` reads only the old
`grid`, mirroring the `next_grid = grid.copy()` discipline of the code):
a live cell with neighbor count outside {2,3} becomes dead with age 0; a
live cell with 2 or 3 neighbors stays alive with age `min 255 (age + 1)`;
a dead cell with exactly 3 neighbors becomes alive with age 0; any other
dead cell stays dead with age 0 (its age is unchanged by the code, hence
0 under the spec invariant `deadAgeZero`, which holds in every reachable
state). -/
theorem update_grid_rule (s : GameState) (hd : deadAgeZero s)
    (i j : Nat) (hi : i < s.rows) (hj : j < s.cols) :
    ((s.grid i j = 1 ∧ (count_neighbors s.grid s.rows s.cols i j < 2 ∨
        count_neighbors s.grid s.rows s.cols i j > 3)) →
      (update_grid s).grid i j = 0 ∧ (update_grid s).cell_ages i j = 0) ∧
    ((s.grid i j = 1 ∧ (count_neighbors s.grid s.rows s.cols i j = 2 ∨
        count_neighbors s.grid s.rows s.cols i j = 3)) →
      (update_grid s).grid i j = 1 ∧
        (update_grid s).cell_ages i j = min 255 (s.cell_ages i j + 1)) ∧
    ((s.grid i j = 0 ∧ count_neighbors s.grid s.rows s.cols i j = 3) →
      (update_grid s).grid i j = 1 ∧ (update_grid s).cell_ages i j = 0) ∧
    ((s.grid i j = 0 ∧ count_neighbors s.grid s.rows s.cols i j ≠ 3) →
      (update_grid s).grid i j = 0 ∧ (update_grid s).cell_ages i j = 0) := by
  have hij : i < s.rows ∧ j < s.cols := ⟨hi, hj⟩
  have hg : (update_grid s).grid i j = next_cell s i j := by
    simp only [update_grid]
    rw [if_pos hij]
  have ha : (update_grid s).cell_ages i j = next_age s i j := by
    simp only [update_grid]
    rw [if_pos hij]
  refine ⟨?_, ?_, ?_, ?_⟩
  · rintro ⟨h1, h2⟩
    rw [hg, ha]
    simp only [next_cell, next_age]
    simp [h1, h2]
  · rintro ⟨h1, h2⟩
    have hn : ¬(count_neighbors s.grid s.rows s.cols i j < 2 ∨
        count_neighbors s.grid s.rows s.cols i j > 3) := by omega
    rw [hg, ha]
    simp only [next_cell, next_age]
    simp [h1, hn]
  · rintro ⟨h1, h2⟩
    rw [hg, ha]
    simp only [next_cell, next_age]
    simp [h1, h2]
  · rintro ⟨h1, h2⟩
    rw [hg, ha]
    simp only [next_cell, next_age]
    refine ⟨by simp [h1, h2], ?_⟩
    simp [h1, h2]
    exact hd i hi j hj h1

/-- Witness for C1: the center cell of the blinker is alive with exactly
2 live neighbors, so it survives with its age incremented. -/
theorem update_grid_rule_witness :
    (update_grid blinker).grid 2 2 = 1 ∧
    (update_grid blinker).cell_ages 2 2 = min 255 (blinker.cell_ages 2 2 + 1) :=
  (update_grid_rule blinker (by decide) 2 2 (by decide) (by decide)).2.1 (by decide)

/-- Claim C3: the invariant `AgeMap[i,j] == 0` whenever `Grid[i,j]` is
dead holds after construction and after `randomize`, and is preserved by
`update_grid` and by `toggle` for every state satisfying it beforehand
(so it holds in every reachable state). -/
theorem dead_age_zero_invariant :
    (∀ rows cols g, deadAgeZero (initState rows cols g)) ∧
    (∀ s g, deadAgeZero (randomize s g)) ∧
    (∀ s, deadAgeZero s → deadAgeZero (update_grid s)) ∧
    (∀ s row col, deadAgeZero s → deadAgeZero (toggle s row col)) := by
  refine ⟨?_, ?_, ?_, ?_⟩
  · intro rows cols g i _ j _ _
    rfl
  · intro s g i _ j _ _
    rfl
  · intro s hd i hi j hj h0
    have hij : i < s.rows ∧ j < s.cols := ⟨hi, hj⟩
    simp only [update_grid] at h0 ⊢
    rw [if_pos hij] at h0 ⊢
    simp only [next_cell] at h0
    simp only [next_age]
    by_cases hgl : s.grid i j = 1
    · by_cases hn : count_neighbors s.grid s.rows s.cols i j < 2 ∨
          count_neighbors s.grid s.rows s.cols i j > 3
      · simp [hgl, hn]
      · simp [hgl, hn] at h0
    · by_cases hn : count_neighbors s.grid s.rows s.cols i j = 3
      · simp [hgl, hn] at h0
      · simp [hgl, hn] at h0 ⊢
        exact hd i hi j hj h0
  · intro s row col hd i hi j hj h0
    by_cases hrc : row < s.rows ∧ col < s.cols
    · simp only [toggle, if_pos hrc] at h0 hi hj ⊢
      by_cases hij : i = row ∧ j = col
      · simp [hij]
      · simp only [if_neg hij] at h0 ⊢
        exact hd i hi j hj h0
    · simp only [toggle, if_neg hrc] at h0 hi hj ⊢
      exact hd i hi j hj h0

/-- Witness for C3: concrete instances of all four conjuncts. -/
theorem dead_age_zero_invariant_witness :
    (initState 2 2 (fun _ _ => 0)).cell_ages 0 0 = 0 ∧
    (randomize blockState (fun _ _ => 0)).cell_ages 1 1 = 0 ∧
    (update_grid blinker).cell_ages 0 0 = 0 ∧
    (toggle blinker 2 2).cell_ages 0 1 = 0 :=
  ⟨dead_age_zero_invariant.1 2 2 (fun _ _ => 0) 0 (by decide) 0 (by decide) rfl,
    dead_age_zero_invariant.2.1 blockState (fun _ _ => 0) 1 (by decide) 1 (by decide)
      (by decide),
    dead_age_zero_invariant.2.2.1 blinker (by decide) 0 (by decide) 0 (by decide)
      (by decide),
    dead_age_zero_invariant.2.2.2 blinker 2 2 (by decide) 0 (by decide) 1 (by decide)
      (by decide)⟩

/-- Claim C6 counterexample: a click that maps to the out-of-range cell
(5, 0) of the 5×5 `blinker` leaves the state completely unchanged — the
handler's result is indistinguishable from not having been called, and
its result type carries no error component, so the out-of-range condition
is silently ignored rather than reported to the caller. -/
theorem toggle_out_of_range_counterexample : toggle blinker 5 0 = blinker := by
  unfold toggle
  rw [if_neg (by decide : ¬(5 < blinker.rows ∧ 0 < blinker.cols))]

/-- Claim C6 (amended): a `toggle` whose coordinates fall outside
`[0, rows) × [0, cols)` is a silent no-op: the state is returned
unchanged (in particular no out-of-bounds cell is read or written, and
nothing is reported to the caller). -/
theorem toggle_out_of_range_noop (s : GameState) (row col : Nat)
    (h : ¬(row < s.rows ∧ col < s.cols)) : toggle s row col = s := by
  unfold toggle
  exact if_neg h

/-- Witness for the amended C6. -/
theorem toggle_out_of_range_noop_witness : toggle blinker 7 9 = blinker :=
  toggle_out_of_range_noop blinker 7 9 (by decide)

/-- Generation steps never change the number of rows. -/
theorem update_grid_iterate_rows (s : GameState) (t : Nat) :
    (update_grid^[t] s).rows = s.rows := by
  induction t with
  | zero => rfl
  | succ m ih =>
    rw [Function.iterate_succ_apply']
    exact ih

/-- Generation steps never change the number of columns. -/
theorem update_grid_iterate_cols (s : GameState) (t : Nat) :
    (update_grid^[t] s).cols = s.cols := by
  induction t with
  | zero => rfl
  | succ m ih =>
    rw [Function.iterate_succ_apply']
    exact ih

/-- A live in-range cell that is still alive after the step went through
the survival branch, so its age was set to `min(255, age + 1)`. -/
theorem survive_age_step (s : GameState) (i j : Nat) (hi : i < s.rows) (hj : j < s.cols)
    (ha : s.grid i j = 1) (hb : (update_grid s).grid i j = 1) :
    (update_grid s).cell_ages i j = min 255 (s.cell_ages i j + 1) := by
  have hij : i < s.rows ∧ j < s.cols := ⟨hi, hj⟩
  simp only [update_grid] at hb ⊢
  rw [if_pos hij] at hb ⊢
  simp only [next_cell] at hb
  simp only [next_age]
  by_cases hn : count_neighbors s.grid s.rows s.cols i j < 2 ∨
      count_neighbors s.grid s.rows s.cols i j > 3
  · simp [ha, hn] at hb
  · simp [ha, hn]

/-- Claim C2: a cell whose age is 0 (it just became alive by birth,
toggle, or initialization) and that stays alive through `k` consecutive
generations has age exactly `min k 255` after the `k`-th generation, and
each surviving generation changes its age by exactly the capped increment
`min 255 (age + 1)`. -/
theorem age_counts_consecutive_survival (s : GameState) (i j k : Nat)
    (hi : i < s.rows) (hj : j < s.cols) (h0 : s.cell_ages i j = 0)
    (halive : ∀ t, t ≤ k → (update_grid^[t] s).grid i j = 1) :
    (update_grid^[k] s).cell_ages i j = min k 255 ∧
    ∀ t, t < k → (update_grid^[t + 1] s).cell_ages i j =
      min 255 ((update_grid^[t] s).cell_ages i j + 1) := by
  have hstep : ∀ t, t < k → (update_grid^[t + 1] s).cell_ages i j =
      min 255 ((update_grid^[t] s).cell_ages i j + 1) := by
    intro t ht
    have h1 : (update_grid^[t] s).grid i j = 1 := halive t (le_of_lt ht)
    have h2 : (update_grid^[t + 1] s).grid i j = 1 := halive (t + 1) ht
    rw [Function.iterate_succ_apply'] at h2 ⊢
    exact survive_age_step (update_grid^[t] s) i j
      (by rw [update_grid_iterate_rows]; exact hi)
      (by rw [update_grid_iterate_cols]; exact hj) h1 h2
  have main : ∀ K, (∀ t, t ≤ K → (update_grid^[t] s).grid i j = 1) →
      (update_grid^[K] s).cell_ages i j = min K 255 := by
    intro K
    induction K with
    | zero =>
      intro _
      simp only [Function.iterate_zero_apply]
      omega
    | succ m ih =>
      intro hal
      have hm := ih (fun t ht => hal t (le_trans ht (Nat.le_succ m)))
      have h1 : (update_grid^[m] s).grid i j = 1 := hal m (Nat.le_succ m)
      have h2 : (update_grid^[m + 1] s).grid i j = 1 := hal (m + 1) (le_refl _)
      rw [Function.iterate_succ_apply'] at h2 ⊢
      rw [survive_age_step (update_grid^[m] s) i j
        (by rw [update_grid_iterate_rows]; exact hi)
        (by rw [update_grid_iterate_cols]; exact hj) h1 h2]
      rw [hm]
      omega
  exact ⟨main k halive, hstep⟩

/-- Witness for C2: a cell of the 2×2 block still life (age 0 at start)
survives 2 generations and reaches age `min 2 255 = 2`. -/
theorem age_counts_consecutive_survival_witness :
    (update_grid^[2] blockState).cell_ages 1 1 = min 2 255 ∧
    (update_grid^[0 + 1] blockState).cell_ages 1 1 =
      min 255 ((update_grid^[0] blockState).cell_ages 1 1 + 1) :=
  ⟨(age_counts_consecutive_survival blockState 1 1 2 (by decide) (by decide) (by decide)
      (by decide)).1,
    (age_counts_consecutive_survival blockState 1 1 2 (by decide) (by decide) (by decide)
      (by decide)).2 0 (by decide)⟩

/-- `count_neighbors` reads only in-range cells (every lookup index is
wrapped), so it is determined by the in-range values of the grid. -/
theorem count_neighbors_congr (g1 g2 : Nat → Nat → Nat) (rows cols : Nat)
    (hr : 0 < rows) (hc : 0 < cols)
    (hagree : ∀ a, a < rows → ∀ b, b < cols → g1 a b = g2 a b) (x y : Nat) :
    count_neighbors g1 rows cols x y = count_neighbors g2 rows cols x y := by
  have key : ∀ a b : Int, g1 (wrap rows a) (wrap cols b) = g2 (wrap rows a) (wrap cols b) :=
    fun a b => hagree _ (wrap_lt hr a) _ (wrap_lt hc b)
  unfold count_neighbors
  rw [key, key, key, key, key, key, key, key]

/-- One generation step preserves observable equality of states. -/
theorem update_grid_obsEq (s1 s2 : GameState) (hr : 0 < s1.rows) (hc : 0 < s1.cols)
    (h : ObsEq s1 s2) : ObsEq (update_grid s1) (update_grid s2) := by
  obtain ⟨hrow, hcol, hcell⟩ := h
  have hgr : ∀ a, a < s1.rows → ∀ b, b < s1.cols → s1.grid a b = s2.grid a b :=
    fun a ha b hb => (hcell a ha b hb).1
  have hcn : ∀ x y : Nat, count_neighbors s1.grid s1.rows s1.cols x y =
      count_neighbors s2.grid s2.rows s2.cols x y := by
    intro x y
    rw [← hrow, ← hcol]
    exact count_neighbors_congr s1.grid s2.grid s1.rows s1.cols hr hc hgr x y
  refine ⟨hrow, hcol, ?_⟩
  intro i hi j hj
  have hi1 : i < s1.rows := hi
  have hj1 : j < s1.cols := hj
  have hi2 : i < s2.rows := hrow ▸ hi1
  have hj2 : j < s2.cols := hcol ▸ hj1
  have hgij := hgr i hi1 j hj1
  have haij := (hcell i hi1 j hj1).2
  constructor
  · simp only [update_grid]
    rw [if_pos ⟨hi1, hj1⟩, if_pos ⟨hi2, hj2⟩]
    simp only [next_cell]
    rw [hcn i j, hgij]
  · simp only [update_grid]
    rw [if_pos ⟨hi1, hj1⟩, if_pos ⟨hi2, hj2⟩]
    simp only [next_age]
    rw [hcn i j, hgij, haij]

/-- Claim C9: `update_grid` is deterministic and depends on nothing but
the observable state: two states with identical dimensions, grids and age
maps (on the in-range cells that constitute the arrays), stepped the same
number of times, remain identical in grids and age maps. -/
theorem step_deterministic (s1 s2 : GameState) (hr : 0 < s1.rows) (hc : 0 < s1.cols)
    (h : ObsEq s1 s2) (n : Nat) :
    ObsEq (update_grid^[n] s1) (update_grid^[n] s2) := by
  induction n with
  | zero => exact h
  | succ m ih =>
    rw [Function.iterate_succ_apply', Function.iterate_succ_apply']
    exact update_grid_obsEq _ _
      (by rw [update_grid_iterate_rows]; exact hr)
      (by rw [update_grid_iterate_cols]; exact hc) ih

/-- Witness for C9: `detA` and `detB` agree on all in-range cells (they
differ only in the modelling functions' junk values outside the arrays)
and still agree after 3 steps. -/
theorem step_deterministic_witness :
    (update_grid^[3] detA).grid 0 0 = (update_grid^[3] detB).grid 0 0 ∧
    (update_grid^[3] detA).cell_ages 0 0 = (update_grid^[3] detB).cell_ages 0 0 :=
  (step_deterministic detA detB (by decide) (by decide) (by decide) 3).2.2 0 (by decide)
    0 (by decide)

/-- Every reachable state has all in-range ages at most 255: ages start
at 0, a step writes 0 or `min 255 (age + 1)`, a toggle writes 0, a
randomize clears all ages. -/
theorem reachable_agesBounded (s : GameState) (h : Reachable s) : agesBounded s := by
  induction h with
  | start rows cols g =>
    intro i _ j _
    exact Nat.zero_le 255
  | step s hs ih =>
    intro i hi j hj
    have hij : i < s.rows ∧ j < s.cols := ⟨hi, hj⟩
    simp only [update_grid]
    rw [if_pos hij]
    simp only [next_age]
    by_cases hgl : s.grid i j = 1
    · by_cases hn : count_neighbors s.grid s.rows s.cols i j < 2 ∨
          count_neighbors s.grid s.rows s.cols i j > 3
      · rw [if_pos hgl, if_pos hn]
        omega
      · rw [if_pos hgl, if_neg hn]
        omega
    · by_cases hn : count_neighbors s.grid s.rows s.cols i j = 3
      · rw [if_neg hgl, if_pos hn]
        omega
      · rw [if_neg hgl, if_neg hn]
        exact ih i hi j hj
  | click s row col hs ih =>
    intro i hi j hj
    by_cases hrc : row < s.rows ∧ col < s.cols
    · simp only [toggle, if_pos hrc] at hi hj ⊢
      by_cases hij : i = row ∧ j = col
      · rw [if_pos hij]
        omega
      · rw [if_neg hij]
        exact ih i hi j hj
    · simp only [toggle, if_neg hrc] at hi hj ⊢
      exact ih i hi j hj
  | rkey s g hs ih =>
    intro i _ j _
    exact Nat.zero_le 255

/-- Claim C10: in every reachable state every in-range cell's age is in
[0, 255], so the unclamped rendering lookup `color_palette[age]` with
`color_palette = generate_color_palette(256)` always indexes inside the
256-entry palette. -/
theorem palette_index_always_valid (s : GameState) (h : Reachable s)
    (i j : Nat) (hi : i < s.rows) (hj : j < s.cols) :
    s.cell_ages i j < (generate_color_palette 256).length := by
  have hlen : (generate_color_palette 256).length = 256 := by
    rw [generate_color_palette, List.length_map, List.length_range]
  have hb := reachable_agesBounded s h i hi j hj
  rw [hlen]
  omega

/-- Witness for C10. -/
theorem palette_index_always_valid_witness :
    (initState 1 1 (fun _ _ => 0)).cell_ages 0 0 < (generate_color_palette 256).length :=
  palette_index_always_valid (initState 1 1 (fun _ _ => 0))
    (Reachable.start 1 1 (fun _ _ => 0)) 0 0 (by decide) (by decide)

/-- Round-half-even never rounds below the floor. -/
theorem rte_ge_floor (x : ℚ) : ⌊x⌋ ≤ rte x := by
  unfold rte
  split_ifs <;> omega

/-- Round-half-even never rounds above the ceiling. -/
theorem rte_le_floor_add_one (x : ℚ) : rte x ≤ ⌊x⌋ + 1 := by
  unfold rte
  split_ifs <;> omega

/-- Round-half-even is monotone. -/
theorem rte_mono {x y : ℚ} (h : x ≤ y) : rte x ≤ rte y := by
  have hf : ⌊x⌋ ≤ ⌊y⌋ := Int.floor_le_floor h
  rcases lt_or_eq_of_le hf with hlt | heq
  · calc rte x ≤ ⌊x⌋ + 1 := rte_le_floor_add_one x
      _ ≤ ⌊y⌋ := by omega
      _ ≤ rte y := rte_ge_floor y
  · unfold rte
    rw [← heq]
    have h1 : x - ⌊x⌋ ≤ y - ⌊x⌋ := by linarith
    split_ifs <;> first | omega | linarith

/-- Splitting a power of two between an integer scale and a `zpow`. -/
theorem two_zpow_add_nat (e : ℤ) (k : ℕ) :
    (2 : ℚ) ^ (e + k) = ((2 ^ k : ℤ) : ℚ) * 2 ^ e := by
  rw [zpow_add₀ (by norm_num : (2 : ℚ) ≠ 0)]
  push_cast
  rw [zpow_natCast]
  ring

/-- `fl` fixes zero. -/
theorem fl_zero : fl 0 = 0 := by simp [fl]

/-- `fl` on a positive rational: scale into the mantissa range, round,
scale back. -/
theorem fl_of_pos {q : ℚ} (h : 0 < q) :
    fl q = (rte (q / 2 ^ dexp q) : ℚ) * 2 ^ dexp q := by
  unfold fl
  rw [if_neg h.ne', if_neg (not_lt.mpr h.le), abs_of_pos h, one_mul]

/-- The binade exponent of a positive rational, without the absolute
value. -/
theorem dexp_of_pos {q : ℚ} (h : 0 < q) :
    dexp q = max (Int.log 2 q - 52) (-1074) := by
  unfold dexp
  rw [abs_of_pos h]

/-- Rounding preserves nonnegativity. -/
theorem fl_nonneg {q : ℚ} (h : 0 ≤ q) : 0 ≤ fl q := by
  rcases eq_or_lt_of_le h with h0 | h0
  · rw [← h0, fl_zero]
  · rw [fl_of_pos h0]
    have h2 : (0 : ℚ) < 2 ^ dexp q := zpow_pos (by norm_num) _
    have hm : (0 : ℤ) ≤ rte (q / 2 ^ dexp q) := by
      have hfl : (0 : ℤ) ≤ ⌊q / 2 ^ dexp q⌋ := Int.floor_nonneg.mpr (by positivity)
      have := rte_ge_floor (q / 2 ^ dexp q)
      omega
    have hm2 : (0 : ℚ) ≤ (rte (q / 2 ^ dexp q) : ℚ) := by exact_mod_cast hm
    positivity

/-- A rounded positive value stays below the top of its binade. -/
theorem fl_le_zpow {q : ℚ} (h : 0 < q) (hq : q < 2 ^ (dexp q + 53)) :
    fl q ≤ 2 ^ (dexp q + 53) := by
  rw [fl_of_pos h]
  have h2 : (0 : ℚ) < 2 ^ dexp q := zpow_pos (by norm_num) _
  have hz : q / 2 ^ dexp q < ((2 ^ 53 : ℤ) : ℚ) := by
    rw [div_lt_iff₀ h2]
    calc q < 2 ^ (dexp q + 53) := hq
      _ = ((2 ^ 53 : ℤ) : ℚ) * 2 ^ dexp q := two_zpow_add_nat _ 53
  have hfloor : ⌊q / 2 ^ dexp q⌋ < (2 ^ 53 : ℤ) := by
    rw [Int.floor_lt]
    exact hz
  have hrte : rte (q / 2 ^ dexp q) ≤ (2 ^ 53 : ℤ) := by
    have := rte_le_floor_add_one (q / 2 ^ dexp q)
    omega
  calc (rte (q / 2 ^ dexp q) : ℚ) * 2 ^ dexp q
      ≤ ((2 ^ 53 : ℤ) : ℚ) * 2 ^ dexp q := by
        apply mul_le_mul_of_nonneg_right _ h2.le
        exact_mod_cast hrte
    _ = 2 ^ (dexp q + 53) := (two_zpow_add_nat _ 53).symm

/-- Rounding to double precision is monotone on the nonnegative reals
(the only range this program computes in). -/
theorem fl_mono {x y : ℚ} (hx : 0 ≤ x) (hxy : x ≤ y) : fl x ≤ fl y := by
  rcases eq_or_lt_of_le hx with h0 | h0
  · rw [← h0, fl_zero]
    exact fl_nonneg (h0 ▸ hxy)
  · have hy : 0 < y := lt_of_lt_of_le h0 hxy
    have hlog : Int.log 2 x ≤ Int.log 2 y := Int.log_mono_right h0 hxy
    have hexy : dexp x ≤ dexp y := by
      rw [dexp_of_pos h0, dexp_of_pos hy]
      omega
    rcases eq_or_lt_of_le hexy with heq | hlt
    · rw [fl_of_pos h0, fl_of_pos hy, ← heq]
      have h2 : (0 : ℚ) < 2 ^ dexp x := zpow_pos (by norm_num) _
      have hdiv : x / 2 ^ dexp x ≤ y / 2 ^ dexp x := by
        have := mul_le_mul_of_nonneg_right hxy (inv_nonneg.mpr h2.le)
        simpa [div_eq_mul_inv] using this
      have hr : rte (x / 2 ^ dexp x) ≤ rte (y / 2 ^ dexp x) := rte_mono hdiv
      apply mul_le_mul_of_nonneg_right _ h2.le
      exact_mod_cast hr
    · have hup : x < 2 ^ (dexp x + 53) := by
        have hbound : x < ((2 : ℕ) : ℚ) ^ (Int.log 2 x + 1) :=
          Int.lt_zpow_succ_log_self (b := 2) (by norm_num) x
        have hle : Int.log 2 x + 1 ≤ dexp x + 53 := by
          rw [dexp_of_pos h0]
          omega
        calc x < ((2 : ℕ) : ℚ) ^ (Int.log 2 x + 1) := hbound
          _ = (2 : ℚ) ^ (Int.log 2 x + 1) := by norm_num
          _ ≤ 2 ^ (dexp x + 53) := zpow_le_zpow_right₀ (by norm_num) hle
      have h1 : fl x ≤ 2 ^ (dexp x + 53) := fl_le_zpow h0 hup
      have hey : dexp y = Int.log 2 y - 52 := by
        have hx1074 : -1074 ≤ dexp x := by
          rw [dexp_of_pos h0]
          omega
        rw [dexp_of_pos hy]
        rw [dexp_of_pos hy] at hlt
        omega
      have h2 : (0 : ℚ) < 2 ^ dexp y := zpow_pos (by norm_num) _
      have hw : ((2 ^ 52 : ℤ) : ℚ) ≤ y / 2 ^ dexp y := by
        rw [le_div_iff₀ h2]
        calc ((2 ^ 52 : ℤ) : ℚ) * 2 ^ dexp y = 2 ^ (dexp y + 52) :=
              (two_zpow_add_nat _ 52).symm
          _ = 2 ^ (Int.log 2 y) := by rw [hey]; ring_nf
          _ = ((2 : ℕ) : ℚ) ^ (Int.log 2 y) := by norm_num
          _ ≤ y := Int.zpow_log_le_self (b := 2) (by norm_num) hy
      have hfloor : (2 ^ 52 : ℤ) ≤ ⌊y / 2 ^ dexp y⌋ := by
        rw [Int.le_floor]
        exact hw
      have hrte : (2 ^ 52 : ℤ) ≤ rte (y / 2 ^ dexp y) := by
        have := rte_ge_floor (y / 2 ^ dexp y)
        omega
      have hlow : (2 : ℚ) ^ (dexp y + 52) ≤ fl y := by
        rw [fl_of_pos hy]
        calc (2 : ℚ) ^ (dexp y + 52) = ((2 ^ 52 : ℤ) : ℚ) * 2 ^ dexp y :=
              two_zpow_add_nat _ 52
          _ ≤ (rte (y / 2 ^ dexp y) : ℚ) * 2 ^ dexp y := by
              apply mul_le_mul_of_nonneg_right _ h2.le
              exact_mod_cast hrte
      have hmid : (2 : ℚ) ^ (dexp x + 53) ≤ 2 ^ (dexp y + 52) :=
        zpow_le_zpow_right₀ (by norm_num) (by omega)
      linarith

/-- Evaluation rule for `fl`: if scaling `q` by `2 ^ p` lands the value
in the mantissa range `[2^52, 2^53)` and it rounds to `m`, then
`fl q = m / 2 ^ p`. -/
theorem fl_eval {q : ℚ} (p : ℕ) (m : ℤ) (hq : 0 < q) (hp : p ≤ 1074)
    (h1 : (2 : ℚ) ^ 52 ≤ q * 2 ^ p) (h2 : q * 2 ^ p < 2 ^ 53)
    (h3 : rte (q * 2 ^ p) = m) : fl q = (m : ℚ) / 2 ^ p := by
  have h2p : (0 : ℚ) < 2 ^ p := by positivity
  have hlog : Int.log 2 q = 52 - p := by
    have e1 : ((2 : ℕ) : ℚ) ^ ((52 : ℤ) - (p : ℤ)) * (2 : ℚ) ^ p = (2 : ℚ) ^ (52 : ℕ) := by
      push_cast
      rw [← zpow_natCast (2 : ℚ) p, ← zpow_natCast (2 : ℚ) 52,
        ← zpow_add₀ (by norm_num : (2 : ℚ) ≠ 0)]
      norm_num
    have e2 : ((2 : ℕ) : ℚ) ^ ((53 : ℤ) - (p : ℤ)) * (2 : ℚ) ^ p = (2 : ℚ) ^ (53 : ℕ) := by
      push_cast
      rw [← zpow_natCast (2 : ℚ) p, ← zpow_natCast (2 : ℚ) 53,
        ← zpow_add₀ (by norm_num : (2 : ℚ) ≠ 0)]
      norm_num
    have hle : (52 : ℤ) - p ≤ Int.log 2 q := by
      rw [← Int.zpow_le_iff_le_log (by norm_num) hq]
      rw [← mul_le_mul_right h2p, e1]
      exact h1
    have hlt : Int.log 2 q < (53 : ℤ) - p := by
      rw [← Int.lt_zpow_iff_log_lt (by norm_num) hq]
      rw [← mul_lt_mul_right h2p, e2]
      exact h2
    omega
  have he : dexp q = -(p : ℤ) := by
    rw [dexp_of_pos hq, hlog]
    omega
  rw [fl_of_pos hq, he]
  have hdiv : q / (2 : ℚ) ^ (-(p : ℤ)) = q * 2 ^ p := by
    rw [zpow_neg, div_eq_mul_inv, inv_inv, zpow_natCast]
  rw [hdiv, h3, zpow_neg, zpow_natCast, div_eq_mul_inv]

/-- 1.0 is exactly representable. -/
theorem fl_one : fl 1 = 1 := by
  rw [fl_eval 52 4503599627370496 (by norm_num) (by norm_num) (by norm_num) (by norm_num)
    (by norm_num [rte])]
  norm_num

/-- 255.0 is exactly representable. -/
theorem fl_255 : fl 255 = 255 := by
  rw [fl_eval 45 8972014882652160 (by norm_num) (by norm_num) (by norm_num) (by norm_num)
    (by norm_num [rte])]
  norm_num

/-- The literal `0.8` parses to the double `3602879701896397 / 2^52`
(slightly above `4/5`). -/
theorem fl_four_fifths : fl (4 / 5) = 3602879701896397 / 4503599627370496 := by
  rw [fl_eval 53 7205759403792794 (by norm_num) (by norm_num) (by norm_num) (by norm_num)
    (by norm_num [rte])]
  norm_num

/-- The difference `1.0 - 0.8 = 0.19999999999999996` is computed exactly
(Sterbenz) and is representable. -/
theorem fl_d02 : fl (900719925474099 / 4503599627370496) =
    900719925474099 / 4503599627370496 := by
  rw [fl_eval 55 7205759403792792 (by norm_num) (by norm_num) (by norm_num) (by norm_num)
    (by norm_num [rte])]
  norm_num

/-- The double `0.8` is fixed by rounding. -/
theorem fl_c08 : fl (3602879701896397 / 4503599627370496) =
    3602879701896397 / 4503599627370496 := by
  rw [fl_eval 53 7205759403792794 (by norm_num) (by norm_num) (by norm_num) (by norm_num)
    (by norm_num [rte])]
  norm_num

/-- `255 * 0.19999999999999996` rounds to the double just below 51
(`50.99999999999999…`), whose truncation is 50. -/
theorem fl_channel : fl (229683580995895245 / 4503599627370496) =
    3588805953060863 / 70368744177664 := by
  rw [fl_eval 47 7177611906121726 (by norm_num) (by norm_num) (by norm_num) (by norm_num)
    (by norm_num [rte])]
  norm_num

/-- `int()` on a nonnegative float is the floor. -/
theorem pytrunc_of_nonneg {q : ℚ} (h : 0 ≤ q) : pytrunc q = ⌊q⌋ :=
  if_neg (not_lt.mpr h)

/-- Evaluation of the code's palette at n = 1: hue 0 at the double `0.8`
gives channels `int(255 * 1.0) = 255` and
`int(255 * 0.19999999999999996) = int(50.99999999999999) = 50`. -/
theorem palette_one_eval : generate_color_palette 1 = [[255, 50, 50]] := by
  norm_num [generate_color_palette, List.range_succ, hsv_to_rgb, pytrunc, fl_zero, fl_one,
    fl_255, fl_four_fifths, fl_d02, fl_c08, fl_channel]

/-- Evaluation of the spec's full-saturation prediction at n = 1: hue 0
at saturation 1.0 gives pure red `[255, 0, 0]` (all operations exact). -/
theorem claimed_entry_eval : claimed_palette_entry 1 0 = [255, 0, 0] := by
  norm_num [claimed_palette_entry, hsv_to_rgb, pytrunc, fl_zero, fl_one, fl_255]

/-- Rounding keeps the unit interval. -/
theorem fl_unit {x : ℚ} (h0 : 0 ≤ x) (h1 : x ≤ 1) : 0 ≤ fl x ∧ fl x ≤ 1 :=
  ⟨fl_nonneg h0, by
    calc fl x ≤ fl 1 := fl_mono h0 h1
      _ = 1 := fl_one⟩

/-- Every channel `int(255 * x)` with the double `x ∈ [0, 1]` lies in
[0, 255]. -/
theorem pytrunc_channel_bound {x : ℚ} (h0 : 0 ≤ x) (h1 : x ≤ 1) :
    0 ≤ pytrunc (fl (255 * x)) ∧ pytrunc (fl (255 * x)) ≤ 255 := by
  have hfl0 : 0 ≤ fl (255 * x) := fl_nonneg (by positivity)
  have hfl1 : fl (255 * x) ≤ 255 := by
    calc fl (255 * x) ≤ fl 255 := fl_mono (by positivity) (by nlinarith)
      _ = 255 := fl_255
  rw [pytrunc_of_nonneg hfl0]
  constructor
  · exact Int.floor_nonneg.mpr hfl0
  · have h2 := Int.floor_le_floor hfl1
    have h3 : ⌊(255 : ℚ)⌋ = 255 := by norm_num
    omega

/-- For nonnegative hue and saturation/value in [0, 1], every component
`hsv_to_rgb` returns is one of `v`, `p`, `q`, `t`, all in [0, 1]. -/
theorem hsv_to_rgb_bounds (h s v : ℚ) (hh0 : 0 ≤ h) (hs0 : 0 ≤ s) (hs1 : s ≤ 1)
    (hv0 : 0 ≤ v) (hv1 : v ≤ 1) :
    (0 ≤ (hsv_to_rgb h s v).1 ∧ (hsv_to_rgb h s v).1 ≤ 1) ∧
    (0 ≤ (hsv_to_rgb h s v).2.1 ∧ (hsv_to_rgb h s v).2.1 ≤ 1) ∧
    (0 ≤ (hsv_to_rgb h s v).2.2 ∧ (hsv_to_rgb h s v).2.2 ≤ 1) := by
  by_cases hs : s = 0
  · simp only [hsv_to_rgb, hs, if_pos]
    exact ⟨⟨hv0, hv1⟩, ⟨hv0, hv1⟩, ⟨hv0, hv1⟩⟩
  · simp only [hsv_to_rgb, if_neg hs]
    have hy0 : (0 : ℚ) ≤ fl (h * 6) := fl_nonneg (by positivity)
    have hfr0 : (0 : ℚ) ≤ fl (h * 6) - (pytrunc (fl (h * 6)) : ℚ) := by
      rw [pytrunc_of_nonneg hy0]
      have := Int.floor_le (fl (h * 6))
      linarith
    have hfr1 : fl (h * 6) - (pytrunc (fl (h * 6)) : ℚ) ≤ 1 := by
      rw [pytrunc_of_nonneg hy0]
      have := Int.lt_floor_add_one (fl (h * 6))
      linarith
    have hFb := fl_unit hfr0 hfr1
    have h1s := fl_unit (x := 1 - s) (by linarith) (by linarith)
    have hp := fl_unit (x := v * fl (1 - s)) (mul_nonneg hv0 h1s.1)
      (by nlinarith [h1s.1, h1s.2])
    have hsf := fl_unit (x := s * fl (fl (h * 6) - (pytrunc (fl (h * 6)) : ℚ)))
      (mul_nonneg hs0 hFb.1) (by nlinarith [hFb.1, hFb.2])
    have h1sf := fl_unit (x := 1 - fl (s * fl (fl (h * 6) - (pytrunc (fl (h * 6)) : ℚ))))
      (by linarith [hsf.2]) (by linarith [hsf.1])
    have hq := fl_unit
      (x := v * fl (1 - fl (s * fl (fl (h * 6) - (pytrunc (fl (h * 6)) : ℚ)))))
      (mul_nonneg hv0 h1sf.1) (by nlinarith [h1sf.1, h1sf.2])
    have h1F := fl_unit (x := 1 - fl (fl (h * 6) - (pytrunc (fl (h * 6)) : ℚ)))
      (by linarith [hFb.2]) (by linarith [hFb.1])
    have hs1F := fl_unit (x := s * fl (1 - fl (fl (h * 6) - (pytrunc (fl (h * 6)) : ℚ))))
      (mul_nonneg hs0 h1F.1) (by nlinarith [h1F.1, h1F.2])
    have h1s1F := fl_unit
      (x := 1 - fl (s * fl (1 - fl (fl (h * 6) - (pytrunc (fl (h * 6)) : ℚ)))))
      (by linarith [hs1F.2]) (by linarith [hs1F.1])
    have ht := fl_unit
      (x := v * fl (1 - fl (s * fl (1 - fl (fl (h * 6) - (pytrunc (fl (h * 6)) : ℚ))))))
      (mul_nonneg hv0 h1s1F.1) (by nlinarith [h1s1F.1, h1s1F.2])
    by_cases h0 : pytrunc (fl (h * 6)) % 6 = 0
    · simp only [h0, if_pos]
      exact ⟨⟨hv0, hv1⟩, ht, hp⟩
    · by_cases h1 : pytrunc (fl (h * 6)) % 6 = 1
      · simp only [h0, h1, if_neg, if_pos, if_false]
        exact ⟨hq, ⟨hv0, hv1⟩, hp⟩
      · by_cases h2 : pytrunc (fl (h * 6)) % 6 = 2
        · simp only [h0, h1, h2, if_neg, if_pos, if_false]
          exact ⟨hp, ⟨hv0, hv1⟩, ht⟩
        · by_cases h3 : pytrunc (fl (h * 6)) % 6 = 3
          · simp only [h0, h1, h2, h3, if_neg, if_pos, if_false]
            exact ⟨hp, hq, ⟨hv0, hv1⟩⟩
          · by_cases h4 : pytrunc (fl (h * 6)) % 6 = 4
            · simp only [h0, h1, h2, h3, h4, if_neg, if_pos, if_false]
              exact ⟨ht, hp, ⟨hv0, hv1⟩⟩
            · simp only [h0, h1, h2, h3, h4, if_neg, if_false]
              exact ⟨⟨hv0, hv1⟩, hp, hq⟩

/-- Claim C5 counterexample: instantiating the claim at n = 1, i = 0,
the palette the code builds starts with `[255, 50, 50]` — hue 0 at the
saturation 0.8 the code actually passes, computed in exactly modelled
double arithmetic (`int(255 * (1.0 - 0.8)) = int(50.99999999999999) =
50`) — not the full-saturation value `[255, 0, 0]` the claim predicts:
entry 0 is NOT the HSV-to-RGB conversion at full saturation. -/
theorem generate_color_palette_counterexample :
    (generate_color_palette 1)[0]? ≠ some (claimed_palette_entry 1 0) := by
  rw [palette_one_eval, claimed_entry_eval]
  decide

/-- Claim C5 (amended): for every n ≥ 1, `generate_color_palette n` is an
ordered sequence of exactly n RGB triples in which entry i is the
HSV-to-RGB conversion (in the code's IEEE-754 double arithmetic) of hue
i/n at saturation 0.8 (not full saturation) and full value, with each
channel `int(255 * x)` lying in [0, 255]; the result is a pure function
of n (deterministic). -/
theorem generate_color_palette_amended (n : Nat) (_hn : 1 ≤ n) :
    (generate_color_palette n).length = n ∧
    (∀ i, i < n → (generate_color_palette n)[i]? =
      some [pytrunc (fl (255 * (hsv_to_rgb (fl ((i : ℚ) / (n : ℚ))) (fl (4 / 5)) 1).1)),
        pytrunc (fl (255 * (hsv_to_rgb (fl ((i : ℚ) / (n : ℚ))) (fl (4 / 5)) 1).2.1)),
        pytrunc (fl (255 * (hsv_to_rgb (fl ((i : ℚ) / (n : ℚ))) (fl (4 / 5)) 1).2.2))]) ∧
    (∀ i, i < n → ∀ ch ∈ (generate_color_palette n).getD i [], 0 ≤ ch ∧ ch ≤ 255) := by
  have hlen : (generate_color_palette n).length = n := by
    rw [generate_color_palette, List.length_map, List.length_range]
  have hent : ∀ i, i < n → (generate_color_palette n)[i]? =
      some [pytrunc (fl (255 * (hsv_to_rgb (fl ((i : ℚ) / (n : ℚ))) (fl (4 / 5)) 1).1)),
        pytrunc (fl (255 * (hsv_to_rgb (fl ((i : ℚ) / (n : ℚ))) (fl (4 / 5)) 1).2.1)),
        pytrunc (fl (255 * (hsv_to_rgb (fl ((i : ℚ) / (n : ℚ))) (fl (4 / 5)) 1).2.2))] := by
    intro i hi
    rw [generate_color_palette, List.getElem?_map, List.getElem?_range hi]
    rfl
  refine ⟨hlen, hent, ?_⟩
  intro i hi ch hch
  rw [List.getD_eq_getElem?_getD, hent i hi] at hch
  simp only [Option.getD_some] at hch
  obtain ⟨hx1, hx2, hx3⟩ := hsv_to_rgb_bounds (fl ((i : ℚ) / (n : ℚ))) (fl (4 / 5)) 1
    (fl_nonneg (by positivity)) (fl_unit (by norm_num) (by norm_num)).1
    (fl_unit (by norm_num) (by norm_num)).2 (by norm_num) (by norm_num)
  simp only [List.mem_cons, List.not_mem_nil, or_false] at hch
  rcases hch with he | he | he
  · rw [he]
    exact pytrunc_channel_bound hx1.1 hx1.2
  · rw [he]
    exact pytrunc_channel_bound hx2.1 hx2.2
  · rw [he]
    exact pytrunc_channel_bound hx3.1 hx3.2

/-- Witness for the amended C5, at n = 1. -/
theorem generate_color_palette_amended_witness :
    (generate_color_palette 1).length = 1 ∧
    (generate_color_palette 1)[0]? =
      some [pytrunc (fl (255 *
          (hsv_to_rgb (fl (((0 : Nat) : ℚ) / ((1 : Nat) : ℚ))) (fl (4 / 5)) 1).1)),
        pytrunc (fl (255 *
          (hsv_to_rgb (fl (((0 : Nat) : ℚ) / ((1 : Nat) : ℚ))) (fl (4 / 5)) 1).2.1)),
        pytrunc (fl (255 *
          (hsv_to_rgb (fl (((0 : Nat) : ℚ) / ((1 : Nat) : ℚ))) (fl (4 / 5)) 1).2.2))] :=
  ⟨(generate_color_palette_amended 1 (by decide)).1,
    (generate_color_palette_amended 1 (by decide)).2.1 0 (by decide)⟩

end GTI
